import Mathlib

/-!
Verification of the agent-connection core of flowrite (`src-tauri/src/acp.rs`).

The Rust module manages subprocess-hosted agents: a registry keyed by a
deterministic agent identity with LRU eviction, a per-agent command loop that
serializes client commands against protocol updates of an in-flight prompt, a
permission broker with a pending-decision table, and a streaming pipeline that
turns protocol notifications into UI events.  The definitions below are a
shallow embedding of those parts: `HashMap`s become association lists, oneshot
channels become explicit delivered-decision lists, and each relevant arm of the
command loop becomes a pure state-transition function.
-/

set_option linter.unusedVariables false
set_option linter.unnecessarySimpa false

/-! ### Association lists, modelling `std::collections::HashMap` -/

/-- Keys of an association list. -/
def assocKeys {α : Type} (m : List (String × α)) : List String := m.map Prod.fst

/-- `HashMap::get`. -/
def assocFind {α : Type} : List (String × α) → String → Option α
  | [], _ => none
  | (k, v) :: rest, key => if k = key then some v else assocFind rest key

/-- `HashMap::insert`: replaces the binding when the key is present, otherwise adds it. -/
def assocInsert {α : Type} : List (String × α) → String → α → List (String × α)
  | [], key, v => [(key, v)]
  | (k, w) :: rest, key, v =>
      if k = key then (k, v) :: rest else (k, w) :: assocInsert rest key v

/-- `HashMap::remove` (drops the first binding with the key). -/
def assocErase {α : Type} : List (String × α) → String → List (String × α)
  | [], _ => []
  | (k, v) :: rest, key => if k = key then rest else (k, v) :: assocErase rest key

/-- Remove the first occurrence of a string from a list. -/
def removeFirst : List String → String → List String
  | [], _ => []
  | x :: rest, y => if x = y then rest else x :: removeFirst rest y

/-! ### Agent identity (`compute_agent_id`) and the registry (`AcpStateInner`, `acp_connect`) -/

/-- Wrap-around bound of the 64-bit Rust hasher state. -/
def U64 : Nat := 18446744073709551616

/-- Model of feeding one string into the `DefaultHasher` (`String::hash` writes the
bytes and a terminator).  The claims depend only on the final state being a
function of the sequence of strings fed, which this fold is. -/
def hashWriteStr (h : Nat) (s : String) : Nat :=
  (s.data.foldl (fun acc c => (acc * 1099511628211 + c.toNat) % U64) h * 131 + 255) % U64

/-- Lowercase hexadecimal digit. -/
def hexDigit (n : Nat) : Char := if n < 10 then Char.ofNat (48 + n) else Char.ofNat (87 + n)

/-- Rust format `agent-\x7b:016x\x7d`: sixteen lowercase hex digits. -/
def toHex16 (n : Nat) : String :=
  String.mk ((List.range 16).map (fun i => hexDigit (n / 16 ^ (15 - i) % 16)))

/-- Lexicographic comparison of character sequences; Rust's `Ord` for `String`
is the lexicographic byte order, which agrees with scalar-value order on UTF-8. -/
def charListLe : List Char → List Char → Bool
  | [], _ => true
  | _ :: _, [] => false
  | a :: as, b :: bs =>
      if a.toNat < b.toNat then true
      else if b.toNat < a.toNat then false
      else charListLe as bs

/-- Rust `String` order. -/
def strLe (a b : String) : Bool := charListLe a.data b.data

/-- The environment entries collected and sorted by cloned key
(`sorted_env.sort_by_key`); a stable sort, as in Rust. -/
def sortEnv (env : List (String × String)) : List (String × String) :=
  List.insertionSort (fun a b => strLe a.1 b.1 = true) env

/-- `compute_agent_id`: hash the command, then every environment pair in
key-sorted order, and render `agent-` followed by the 64-bit state in hex. -/
def compute_agent_id (command : String) (env : List (String × String)) : String :=
  let h0 := hashWriteStr 14695981039346656037 command
  let h := (sortEnv env).foldl (fun h kv => hashWriteStr (hashWriteStr h kv.1) kv.2) h0
  "agent-" ++ toHex16 h

/-- `AgentHandle`: the command-channel sender (identified by a number here) and
the last-used timestamp.  The captured-error slot plays no role in the claims. -/
structure AgentHandle where
  commandTx : Nat
  lastUsed : Nat
deriving DecidableEq, Repr

/-- `AcpStateInner`: one entry per running agent process, keyed by agent id. -/
structure AcpStateInner where
  agents : List (String × AgentHandle)
deriving DecidableEq, Repr

/-- `MAX_AGENT_PROCESSES`. -/
def MAX_AGENT_PROCESSES : Nat := 5

/-- First entry with minimal `lastUsed` (Rust `min_by_key` keeps the first minimum). -/
def minEntryAux (best : String × AgentHandle) :
    List (String × AgentHandle) → String × AgentHandle
  | [] => best
  | kv :: rest => minEntryAux (if kv.2.lastUsed < best.2.lastUsed then kv else best) rest

/-- The `min_by_key(|handle| handle.last_used)` step of the eviction block. -/
def lruOldest : List (String × AgentHandle) → Option (String × AgentHandle)
  | [] => none
  | x :: xs => some (minEntryAux x xs)

/-- What `acp_connect` did besides updating the registry. -/
inductive ConnectAction where
  | reused (tx : Nat)
  | spawned
deriving DecidableEq, Repr

/-- `acp_connect` as one step over the registry state: compute the identity; if a
handle exists, refresh `lastUsed` and reuse its command channel (the cached info
snapshot is then fetched through that channel); otherwise evict the least
recently used entry when at capacity, and insert a fresh handle for the spawned
supervisor task.  `now` is the current instant, `freshTx` the new channel. -/
def acp_connect (st : AcpStateInner) (now : Nat) (command : String)
    (env : List (String × String)) (freshTx : Nat) : AcpStateInner × ConnectAction :=
  let agentId := compute_agent_id command env
  match assocFind st.agents agentId with
  | some handle =>
      (⟨assocInsert st.agents agentId { handle with lastUsed := now }⟩,
        ConnectAction.reused handle.commandTx)
  | none =>
      let afterEvict : AcpStateInner :=
        if MAX_AGENT_PROCESSES ≤ st.agents.length then
          match lruOldest st.agents with
          | some ev => ⟨assocErase st.agents ev.1⟩
          | none => st
        else st
      (⟨assocInsert afterEvict.agents agentId ⟨freshTx, now⟩⟩, ConnectAction.spawned)

/-! ### `RuntimeShared` and the permission broker -/

/-- `ActiveStream`: the sink registered for the session with the live prompt
(the channel itself is opaque). -/
structure ActiveStream where
  sessionId : String
deriving DecidableEq, Repr

/-- `RuntimeShared`: the active sink, the pending-permission table (the oneshot
senders are represented by their request ids), and the id-minting counter. -/
structure RuntimeShared where
  activeStream : Option ActiveStream
  pendingPermissions : List String
  nextPermissionRequestId : Nat
deriving DecidableEq, Repr

/-- `resolve_permission_selection`: remove the pending sender from the table and
fulfil it.  The third component lists the decisions actually delivered to
waiting permission calls by this step. -/
def resolve_permission_selection (shared : RuntimeShared) (requestId : String)
    (selection : Option String) :
    RuntimeShared × Except String Unit × List (String × Option String) :=
  if requestId ∈ shared.pendingPermissions then
    ({ shared with pendingPermissions := removeFirst shared.pendingPermissions requestId },
      Except.ok (), [(requestId, selection)])
  else
    (shared, Except.error ("permission request \'" ++ requestId ++ "\' not found"), [])

/-- `cancel_pending_permissions`: drain the whole table and resolve every drained
entry with no decision. -/
def cancel_pending_permissions (shared : RuntimeShared) :
    RuntimeShared × List (String × Option String) :=
  ({ shared with pendingPermissions := [] },
    shared.pendingPermissions.map (fun rid => (rid, none)))

/-- The response sent back into the protocol layer for one inbound
`session/request_permission` call. -/
inductive PermResponse where
  | selected (optionId : String)
  | cancelled
deriving DecidableEq, Repr

/-- `handle_permission_request`, whole lifetime of one inbound call: mint a
request id, insert the decision slot, and either answer immediately (no active
sink for the call's session, or the sink send failed) or wait for the decision.
`decision` models what `decision_rx.await.ok().flatten()` produced: `none`
covers both an explicit no-decision resolution and a dropped sender. -/
def run_permission_request (shared : RuntimeShared) (sessionId : String)
    (sinkSendOk : Bool) (decision : Option String) : RuntimeShared × List PermResponse :=
  let nid := shared.nextPermissionRequestId + 1
  let rid := "permission-" ++ toString nid
  let shared1 : RuntimeShared :=
    { shared with
      nextPermissionRequestId := nid
      pendingPermissions := shared.pendingPermissions ++ [rid] }
  let shouldWait :=
    match shared1.activeStream with
    | some stream => decide (stream.sessionId = sessionId) && sinkSendOk
    | none => false
  if shouldWait then
    let response := match decision with
      | some optionId => PermResponse.selected optionId
      | none => PermResponse.cancelled
    ({ shared1 with pendingPermissions := removeFirst shared1.pendingPermissions rid },
      [response])
  else
    ({ shared1 with pendingPermissions := removeFirst shared1.pendingPermissions rid },
      [PermResponse.cancelled])

/-- The three resolution paths a pending permission can take. -/
inductive PermOp where
  | respond (requestId optionId : String)
  | cancelSession
  | shutdown
deriving DecidableEq, Repr

/-- Apply one resolution operation; the second component of the state
accumulates every decision delivered to a pending permission so far. -/
def applyPermOp (s : RuntimeShared × List (String × Option String)) (op : PermOp) :
    RuntimeShared × List (String × Option String) :=
  match op with
  | PermOp.respond rid oid =>
      let r := resolve_permission_selection s.1 rid (some oid)
      (r.1, s.2 ++ r.2.2)
  | PermOp.cancelSession =>
      let r := cancel_pending_permissions s.1
      (r.1, s.2 ++ r.2)
  | PermOp.shutdown =>
      let r := cancel_pending_permissions s.1
      (r.1, s.2 ++ r.2)

/-- Pending table invariant: pending ids are distinct, no id was resolved twice,
and no pending id was already resolved. -/
def PermInv (s : RuntimeShared × List (String × Option String)) : Prop :=
  s.1.pendingPermissions.Nodup ∧ (s.2.map Prod.fst).Nodup ∧
    ∀ rid ∈ s.1.pendingPermissions, rid ∉ s.2.map Prod.fst

/-! ### Tool calls and the streamed event union -/

/-- `sacp::schema::ToolKind`. -/
inductive ToolKind where
  | readK | editK | deleteK | moveK | searchK | executeK | thinkK | fetchK | switchModeK | otherK
deriving DecidableEq, Repr

/-- `sacp::schema::ToolCallStatus`. -/
inductive ToolCallStatus where
  | pending | inProgress | completed | failed
deriving DecidableEq, Repr

/-- `sacp::schema::ContentBlock`; only the text payload matters to the claims. -/
inductive ContentBlock where
  | text (text : String)
  | image
  | audio
  | resourceLink
  | resource
deriving DecidableEq, Repr

/-- `sacp::schema::ToolCallLocation`. -/
structure ToolCallLocation where
  path : String
  line : Option Nat
deriving DecidableEq, Repr

/-- `sacp::schema::ToolCallContent`. -/
inductive ToolCallContent where
  | content (block : ContentBlock)
  | diff (path : String)
  | terminal (terminalId : String)
deriving DecidableEq, Repr

/-- `sacp::schema::ToolCall` (the fields this module reads). -/
structure ToolCall where
  toolCallId : String
  title : String
  kind : ToolKind
  status : ToolCallStatus
  content : List ToolCallContent
  locations : List ToolCallLocation
deriving DecidableEq, Repr

/-- Modelled from the spec: `sacp`'s `ToolCall::new(id, title)` is external crate
code; per the protocol defaults described in spec section 4.4 the remaining
fields start as kind `other`, status `pending`, empty content and locations. -/
def ToolCall.new (id : String) (title : String) : ToolCall :=
  ⟨id, title, ToolKind.otherK, ToolCallStatus.pending, [], []⟩

/-- `sacp`'s `ToolCallUpdateFields`: each field optionally present. -/
structure ToolCallUpdateFields where
  title : Option String
  kind : Option ToolKind
  status : Option ToolCallStatus
  content : Option (List ToolCallContent)
  locations : Option (List ToolCallLocation)
deriving DecidableEq, Repr

/-- Modelled from the spec: `sacp`'s `ToolCall::update` is external crate code;
per spec section 4.4 every field present in the update overrides the stored
value and absent fields keep their old values. -/
def ToolCall.update (tc : ToolCall) (f : ToolCallUpdateFields) : ToolCall :=
  { tc with
    title := f.title.getD tc.title
    kind := f.kind.getD tc.kind
    status := f.status.getD tc.status
    content := f.content.getD tc.content
    locations := f.locations.getD tc.locations }

/-- `tool_kind_to_string`. -/
def tool_kind_to_string : ToolKind → String
  | ToolKind.readK => "read"
  | ToolKind.editK => "edit"
  | ToolKind.deleteK => "delete"
  | ToolKind.moveK => "move"
  | ToolKind.searchK => "search"
  | ToolKind.executeK => "execute"
  | ToolKind.thinkK => "think"
  | ToolKind.fetchK => "fetch"
  | ToolKind.switchModeK => "switch_mode"
  | ToolKind.otherK => "other"

/-- `tool_call_status_to_string`. -/
def tool_call_status_to_string : ToolCallStatus → String
  | ToolCallStatus.pending => "pending"
  | ToolCallStatus.inProgress => "in_progress"
  | ToolCallStatus.completed => "completed"
  | ToolCallStatus.failed => "failed"

/-- `content_block_kind`. -/
def content_block_kind : ContentBlock → String
  | ContentBlock.text _ => "text"
  | ContentBlock.image => "image"
  | ContentBlock.audio => "audio"
  | ContentBlock.resourceLink => "resource_link"
  | ContentBlock.resource => "resource"

/-- `sacp::schema::PlanEntryStatus`. -/
inductive PlanEntryStatus where
  | pending | inProgress | completed
deriving DecidableEq, Repr

/-- A plan entry from the wire. -/
structure PlanEntry where
  content : String
  status : PlanEntryStatus
deriving DecidableEq, Repr

/-- `plan_entry_status_to_string`. -/
def plan_entry_status_to_string : PlanEntryStatus → String
  | PlanEntryStatus.pending => "pending"
  | PlanEntryStatus.inProgress => "in_progress"
  | PlanEntryStatus.completed => "completed"

/-- `PlanEntryInfo` as serialized to the UI. -/
structure PlanEntryInfo where
  content : String
  status : String
deriving DecidableEq, Repr

/-- `SlashCommandInfo`. -/
structure SlashCommandInfo where
  name : String
  description : String
  inputHint : Option String
deriving DecidableEq, Repr

/-- `PermissionOptionInfo`. -/
structure PermissionOptionInfo where
  optionId : String
  name : String
  kind : String
deriving DecidableEq, Repr

/-- `AgentEvent`, the UI event union. -/
inductive AgentEvent where
  | messageChunk (text : String)
  | thinkingChunk (text : String)
  | toolCallUpdate (toolCallId title kind status : String)
      (content : Option String) (locations : Option (List String))
  | permissionRequest (requestId toolCallId : String) (options : List PermissionOptionInfo)
  | planUpdate (entries : List PlanEntryInfo)
  | modeUpdate (currentModeId : String)
  | commandsUpdate (commands : List SlashCommandInfo)
  | done (stopReason : String)
  | error (message : String)
deriving DecidableEq, Repr

/-- One line of `tool_call_content_to_string`'s loop body. -/
def toolContentLine : ToolCallContent → Option String
  | ToolCallContent.content (ContentBlock.text t) => some t
  | ToolCallContent.content _ => none
  | ToolCallContent.diff p => some ("diff: " ++ p)
  | ToolCallContent.terminal tid => some ("terminal: " ++ tid)

/-- `tool_call_content_to_string`. -/
def tool_call_content_to_string (content : List ToolCallContent) : Option String :=
  let lines := content.filterMap toolContentLine
  if lines.isEmpty then none else some (String.intercalate "\n\n" lines)

/-- `tool_call_locations_to_strings`. -/
def tool_call_locations_to_strings (locations : List ToolCallLocation) :
    Option (List String) :=
  if locations.isEmpty then none
  else some (locations.map (fun loc =>
    match loc.line with
    | some line => loc.path ++ ":" ++ toString line
    | none => loc.path))

/-- `tool_call_to_event`. -/
def tool_call_to_event (tc : ToolCall) : AgentEvent :=
  AgentEvent.toolCallUpdate tc.toolCallId tc.title (tool_kind_to_string tc.kind)
    (tool_call_status_to_string tc.status) (tool_call_content_to_string tc.content)
    (tool_call_locations_to_strings tc.locations)

/-! ### The active prompt and the streaming pipeline -/

/-- `ActivePrompt`: the completion signal (`respondTo`, present until
fulfilled), the tool-call map, the update counter, and the visible-output flag.
The event channel is represented by returning emitted events. -/
structure ActivePrompt where
  agentId : String
  sessionId : String
  respondTo : Option Unit
  toolCalls : List (String × ToolCall)
  updateCount : Nat
  sawVisibleOutput : Bool
deriving DecidableEq, Repr

/-- `sacp::schema::SessionUpdate` variants that the pipeline matches on. -/
inductive SessionUpdate where
  | userMessageChunk (content : ContentBlock)
  | agentMessageChunk (content : ContentBlock)
  | agentThoughtChunk (content : ContentBlock)
  | toolCall (tc : ToolCall)
  | toolCallUpdate (toolCallId : String) (fields : ToolCallUpdateFields)
  | plan (entries : List PlanEntry)
  | currentModeUpdate (currentModeId : String)
  | availableCommandsUpdate (commands : List SlashCommandInfo)
  | configOptionUpdate (count : Nat)
  | unknown
deriving DecidableEq, Repr

/-- `handle_session_notification`: bump the update counter, then translate one
notification into events for the sink (returned in order; the sink is assumed
alive, a failed sink send aborts the prompt and is outside these claims). -/
def handle_session_notification (prompt : ActivePrompt) (update : SessionUpdate) :
    ActivePrompt × List AgentEvent :=
  let prompt := { prompt with updateCount := prompt.updateCount + 1 }
  match update with
  | SessionUpdate.userMessageChunk _ => (prompt, [])
  | SessionUpdate.agentMessageChunk content =>
      match content with
      | ContentBlock.text t =>
          let prompt := if t = "" then prompt else { prompt with sawVisibleOutput := true }
          (prompt, [AgentEvent.messageChunk t])
      | other =>
          ({ prompt with sawVisibleOutput := true },
            [AgentEvent.messageChunk
              ("[unsupported agent message content: " ++ content_block_kind other ++ "]")])
  | SessionUpdate.agentThoughtChunk content =>
      match content with
      | ContentBlock.text t =>
          let prompt := if t = "" then prompt else { prompt with sawVisibleOutput := true }
          (prompt, [AgentEvent.thinkingChunk t])
      | _ => (prompt, [])
  | SessionUpdate.toolCall tc =>
      ({ prompt with
          toolCalls := assocInsert prompt.toolCalls tc.toolCallId tc
          sawVisibleOutput := true },
        [tool_call_to_event tc])
  | SessionUpdate.toolCallUpdate id fields =>
      let current := (assocFind prompt.toolCalls id).getD (ToolCall.new id "tool")
      let updated := ToolCall.update current fields
      ({ prompt with
          toolCalls := assocInsert prompt.toolCalls id updated
          sawVisibleOutput := true },
        [tool_call_to_event updated])
  | SessionUpdate.plan entries =>
      ({ prompt with sawVisibleOutput := true },
        [AgentEvent.planUpdate
          (entries.map (fun e => ⟨e.content, plan_entry_status_to_string e.status⟩))])
  | SessionUpdate.currentModeUpdate modeId => (prompt, [AgentEvent.modeUpdate modeId])
  | SessionUpdate.availableCommandsUpdate commands =>
      (prompt, [AgentEvent.commandsUpdate commands])
  | SessionUpdate.configOptionUpdate _ => (prompt, [])
  | SessionUpdate.unknown => (prompt, [])

/-- Sequential processing of notifications for one active prompt, with the
events emitted along the way. -/
def runNotifs : ActivePrompt → List SessionUpdate → ActivePrompt × List AgentEvent
  | prompt, [] => (prompt, [])
  | prompt, u :: rest =>
      let step := handle_session_notification prompt u
      let next := runNotifs step.1 rest
      (next.1, step.2 ++ next.2)

/-! ### Prompt termination (the `StopReason` arm of the command loop) -/

/-- `sacp::schema::StopReason` (unknown variants map to "unknown"). -/
inductive StopReason where
  | endTurn | maxTokens | maxTurnRequests | refusal | cancelledReason | unknown
deriving DecidableEq, Repr

/-- `stop_reason_to_string`. -/
def stop_reason_to_string : StopReason → String
  | StopReason.endTurn => "end_turn"
  | StopReason.maxTokens => "max_tokens"
  | StopReason.maxTurnRequests => "max_turn_requests"
  | StopReason.refusal => "refusal"
  | StopReason.cancelledReason => "cancelled"
  | StopReason.unknown => "unknown"

/-- The diagnostic text emitted when a prompt ends without visible output. -/
def no_output_message (stopReasonText : String) : String :=
  "agent finished with stop reason \'" ++ stopReasonText ++
    "\' but produced no visible output. check ACP logs for upstream provider/model errors."

/-- `complete_prompt`: fulfil the completion signal, once. -/
def complete_prompt (prompt : ActivePrompt) (result : Except String Unit) :
    ActivePrompt × Option (Except String Unit) :=
  match prompt.respondTo with
  | some _ => ({ prompt with respondTo := none }, some result)
  | none => (prompt, none)

/-- The `Ok(SessionMessage::StopReason)` arm: events sent to the sink in order,
the completion value delivered to the caller, the shared state after
`clear_active_stream`, and the cleared active-prompt slot. -/
def on_stop_reason (shared : RuntimeShared) (prompt : ActivePrompt) (stop : StopReason) :
    List AgentEvent × Option (Except String Unit) × RuntimeShared × Option ActivePrompt :=
  let stopReasonText := stop_reason_to_string stop
  let diag :=
    if prompt.sawVisibleOutput then []
    else [AgentEvent.error (no_output_message stopReasonText)]
  let completed := complete_prompt prompt (Except.ok ())
  (diag ++ [AgentEvent.done stopReasonText], completed.2,
    { shared with activeStream := none }, none)

/-! ### The idle-state `Prompt` command arm -/

/-- Rust `char::is_whitespace` (the Unicode `White_Space` code points). -/
def isRustWhitespace (c : Char) : Bool :=
  c.toNat ∈ [9, 10, 11, 12, 13, 32, 133, 160, 5760, 8192, 8193, 8194, 8195, 8196,
    8197, 8198, 8199, 8200, 8201, 8202, 8232, 8233, 8239, 8287, 12288]

/-- Rust `str::trim` (as a character list). -/
def rustTrim (s : String) : List Char :=
  ((s.toList.dropWhile (fun c => isRustWhitespace c)).reverse.dropWhile
    (fun c => isRustWhitespace c)).reverse

/-- Outcome of the idle-state `AgentCommand::Prompt` arm. -/
inductive PromptCmdResult where
  | rejected (message : String)
  | sendFailed (message : String)
  | accepted (prompt : ActivePrompt) (stream : ActiveStream)
deriving DecidableEq, Repr

/-- The `AgentCommand::Prompt` arm of the idle command loop: reject
whitespace-only text, then unknown sessions, then call `session.send_prompt`
(`sendResult`); on success record the `ActivePrompt` and register the sink.
The second component records whether `send_prompt` was invoked — the only
contact with the agent process in this arm. -/
def handle_prompt_idle (agentId : String) (sessions : List String) (sessionId text : String)
    (sendResult : Except String Unit) : PromptCmdResult × Bool :=
  if (rustTrim text).isEmpty then
    (PromptCmdResult.rejected "prompt text cannot be empty", false)
  else if sessionId ∈ sessions then
    match sendResult with
    | Except.ok () =>
        (PromptCmdResult.accepted ⟨agentId, sessionId, some (), [], 0, false⟩ ⟨sessionId⟩, true)
    | Except.error e =>
        (PromptCmdResult.sendFailed ("failed to send prompt to agent: " ++ e), true)
  else
    (PromptCmdResult.rejected ("session \'" ++ sessionId ++ "\' not found"), false)

/-! ### Commands arriving while a prompt is running -/

/-- `AgentCommand` (reply channels elided; payloads kept). -/
inductive AgentCommand where
  | getInfo
  | newSession (cwd : String)
  | promptCmd (sessionId text : String)
  | respondPermission (requestId optionId : String)
  | cancel (sessionId : String)
  | setMode (sessionId modeId : String)
  | setModel (sessionId modelId : String)
deriving DecidableEq, Repr

/-- Everything `handle_command_while_prompt_running` did: the new shared state,
the (unterminated) active prompt, the reply sent on the command's channel,
the `session/cancel` notifications sent to the process, and the permission
decisions delivered. -/
structure BusyCmdOutcome where
  shared : RuntimeShared
  prompt : ActivePrompt
  reply : Except String Unit
  cancelNotifications : List String
  decisions : List (String × Option String)
deriving Repr

/-- `handle_command_while_prompt_running`.  `notifySend` models the result of
`cx.send_notification(CancelNotification...)`; `get_info`'s reply payload (the
cached agent info) is elided to `()`. -/
def handle_command_while_prompt_running (shared : RuntimeShared) (prompt : ActivePrompt)
    (command : AgentCommand) (notifySend : Except String Unit) : BusyCmdOutcome :=
  match command with
  | AgentCommand.respondPermission requestId optionId =>
      let r := resolve_permission_selection shared requestId (some optionId)
      ⟨r.1, prompt, r.2.1, [], r.2.2⟩
  | AgentCommand.cancel sessionId =>
      if sessionId = prompt.sessionId then
        let r := cancel_pending_permissions shared
        ⟨r.1, prompt, notifySend, [sessionId], r.2⟩
      else
        ⟨shared, prompt,
          Except.error ("cannot cancel session \'" ++ sessionId ++ "\' while session \'" ++
            prompt.sessionId ++ "\' is running"), [], []⟩
  | AgentCommand.getInfo => ⟨shared, prompt, Except.ok (), [], []⟩
  | AgentCommand.newSession _ =>
      ⟨shared, prompt,
        Except.error "cannot create a new session while a prompt is running", [], []⟩
  | AgentCommand.promptCmd _ _ =>
      ⟨shared, prompt, Except.error "prompt already in progress", [], []⟩
  | AgentCommand.setMode _ _ =>
      ⟨shared, prompt, Except.error "cannot change mode while a prompt is running", [], []⟩
  | AgentCommand.setModel _ _ =>
      ⟨shared, prompt, Except.error "cannot change model while a prompt is running", [], []⟩

/-! ### Spec-side description of tool-call coalescing (for the refinement claim) -/

/-- A tool-call lifecycle notification for one id. -/
inductive ToolNotif where
  | create (tc : ToolCall)
  | updateN (fields : ToolCallUpdateFields)
deriving DecidableEq, Repr

/-- Injection into the wire notification type. -/
def toolNotifToUpdate (id : String) : ToolNotif → SessionUpdate
  | ToolNotif.create tc => SessionUpdate.toolCall tc
  | ToolNotif.updateN fields => SessionUpdate.toolCallUpdate id fields

/-- Field view of a notification per the spec's words: a creation carries every
field, an update only those marked present. -/
def fieldsOfNotif : ToolNotif → ToolCallUpdateFields
  | ToolNotif.create tc =>
      ⟨some tc.title, some tc.kind, some tc.status, some tc.content, some tc.locations⟩
  | ToolNotif.updateN f => f

/-- Spec-side merged states: after each notification, the field-wise merge of
all notifications seen so far (later present fields override, absent fields
keep their previous values). -/
def specMergeStates (st : ToolCall) : List ToolNotif → List ToolCall
  | [] => []
  | n :: rest =>
      let st2 := ToolCall.update st (fieldsOfNotif n)
      st2 :: specMergeStates st2 rest

/-! ### Concrete instances used by witnesses and counterexamples -/

/-- A five-entry registry at capacity, with pairwise-distinct last-used times. -/
def stFive : AcpStateInner :=
  ⟨[("a", ⟨1, 10⟩), ("b", ⟨2, 3⟩), ("c", ⟨3, 7⟩), ("d", ⟨4, 2⟩), ("e", ⟨5, 9⟩)]⟩

/-- A one-entry registry holding the identity of command `codex` with
environment `B=2, A=1`. -/
def stOne : AcpStateInner :=
  ⟨[(compute_agent_id "codex" [("B", "2"), ("A", "1")], ⟨7, 3⟩)]⟩

/-- An active prompt for session `s1` with no output seen yet. -/
def promptS1 : ActivePrompt := ⟨"agent-1", "s1", some (), [], 0, false⟩

/-- An active prompt for session `s1` that has produced visible output. -/
def promptS1out : ActivePrompt := ⟨"agent-1", "s1", some (), [], 3, true⟩

/-- Shared state with a sink registered for `s1` and no pending permission. -/
def sharedS1 : RuntimeShared := ⟨some ⟨"s1"⟩, [], 0⟩

/-- Shared state with a sink registered for `s1` and one pending permission. -/
def sharedPending : RuntimeShared := ⟨some ⟨"s1"⟩, ["permission-1"], 1⟩

/-- A broker state with two pending permissions and an empty delivery log. -/
def permS0 : RuntimeShared × List (String × Option String) :=
  (⟨some ⟨"s1"⟩, ["permission-1", "permission-2"], 2⟩, [])

/-- Respond to the first permission, then cancel the session. -/
def permOps0 : List PermOp :=
  [PermOp.respond "permission-1" "allow", PermOp.cancelSession]

/-- A tool-call creation followed by a partial update for the same id. -/
def toolNotifs0 : List ToolNotif :=
  [ToolNotif.create ⟨"tc1", "read file", ToolKind.readK, ToolCallStatus.pending, [], []⟩,
   ToolNotif.updateN ⟨none, none, some ToolCallStatus.completed,
     some [ToolCallContent.content (ContentBlock.text "done")], none⟩]

/-! ### Helper lemmas about association lists -/

theorem assocFind_assocInsert_self {α : Type} (m : List (String × α)) (k : String) (v : α) :
    assocFind (assocInsert m k v) k = some v := by
  induction m with
  | nil => simp [assocInsert, assocFind]
  | cons kv rest ih =>
    obtain ⟨k1, v1⟩ := kv
    by_cases h : k1 = k
    · subst h; simp [assocInsert, assocFind]
    · simp [assocInsert, assocFind, h, ih]

theorem assocFind_assocInsert_ne {α : Type} (m : List (String × α)) (k k2 : String) (v : α)
    (h : k2 ≠ k) : assocFind (assocInsert m k v) k2 = assocFind m k2 := by
  have hk : k ≠ k2 := Ne.symm h
  induction m with
  | nil => simp [assocInsert, assocFind, hk]
  | cons kv rest ih =>
    obtain ⟨k1, v1⟩ := kv
    by_cases h1 : k1 = k
    · subst h1
      simp [assocInsert, assocFind, hk]
    · simp only [assocInsert, if_neg h1, assocFind]
      by_cases h2 : k1 = k2
      · simp [h2]
      · simp [h2, ih]

theorem assocKeys_assocInsert_of_found {α : Type} (m : List (String × α)) (k : String)
    (v w : α) (h : assocFind m k = some w) :
    assocKeys (assocInsert m k v) = assocKeys m := by
  induction m with
  | nil => simp [assocFind] at h
  | cons kv rest ih =>
    obtain ⟨k1, v1⟩ := kv
    by_cases h1 : k1 = k
    · subst h1; simp [assocInsert, assocKeys]
    · simp only [assocFind, if_neg h1] at h
      simp [assocInsert, assocKeys, h1] at ih ⊢
      exact ih h

theorem assocInsert_of_find_none {α : Type} (m : List (String × α)) (k : String) (v : α)
    (h : assocFind m k = none) : assocInsert m k v = m ++ [(k, v)] := by
  induction m with
  | nil => simp [assocInsert]
  | cons kv rest ih =>
    obtain ⟨k1, v1⟩ := kv
    by_cases h1 : k1 = k
    · simp [assocFind, h1] at h
    · simp only [assocFind, if_neg h1] at h
      simp [assocInsert, h1, ih h]

theorem assocFind_eq_none_iff {α : Type} (m : List (String × α)) (k : String) :
    assocFind m k = none ↔ k ∉ assocKeys m := by
  induction m with
  | nil => simp [assocFind, assocKeys]
  | cons kv rest ih =>
    obtain ⟨k1, v1⟩ := kv
    by_cases h1 : k1 = k
    · subst h1; simp [assocFind, assocKeys]
    · constructor
      · intro h
        simp only [assocFind, if_neg h1] at h
        intro hmem
        simp only [assocKeys, List.map_cons, List.mem_cons] at hmem
        rcases hmem with h2 | h2
        · exact h1 h2.symm
        · exact (ih.mp h) (by simpa [assocKeys] using h2)
      · intro h
        simp only [assocFind, if_neg h1]
        apply ih.mpr
        intro hmem
        apply h
        simp only [assocKeys, List.map_cons, List.mem_cons]
        exact Or.inr (by simpa [assocKeys] using hmem)

theorem assocFind_append {α : Type} (l1 l2 : List (String × α)) (k : String) :
    assocFind (l1 ++ l2) k =
      match assocFind l1 k with
      | some v => some v
      | none => assocFind l2 k := by
  induction l1 with
  | nil => simp [assocFind]
  | cons kv rest ih =>
    obtain ⟨k1, v1⟩ := kv
    by_cases h1 : k1 = k
    · simp [assocFind, h1]
    · simp [assocFind, h1, ih]

theorem mem_assocKeys_of_mem_assocErase {α : Type} (m : List (String × α)) (k k2 : String)
    (h : k2 ∈ assocKeys (assocErase m k)) : k2 ∈ assocKeys m := by
  induction m with
  | nil => simpa [assocErase, assocKeys] using h
  | cons kv rest ih =>
    obtain ⟨k1, v1⟩ := kv
    by_cases h1 : k1 = k
    · simp only [assocErase, if_pos h1] at h
      simp [assocKeys] at h ⊢
      exact Or.inr h
    · simp only [assocErase, if_neg h1] at h
      simp [assocKeys] at h ⊢
      rcases h with h | h
      · exact Or.inl h
      · exact Or.inr (by simpa [assocKeys] using ih (by simpa [assocKeys] using h))

theorem assocFind_assocErase_self_of_nodup {α : Type} (m : List (String × α)) (k : String)
    (hnodup : (assocKeys m).Nodup) : assocFind (assocErase m k) k = none := by
  induction m with
  | nil => simp [assocErase, assocFind]
  | cons kv rest ih =>
    obtain ⟨k1, v1⟩ := kv
    simp only [assocKeys, List.map_cons, List.nodup_cons] at hnodup
    by_cases h1 : k1 = k
    · subst h1
      simp only [assocErase, if_pos rfl]
      rw [assocFind_eq_none_iff]
      exact hnodup.1
    · simp only [assocErase, if_neg h1, assocFind, if_neg h1]
      exact ih hnodup.2

theorem mem_assocErase_of_ne {α : Type} (m : List (String × α)) (k : String)
    (kv : String × α) (hmem : kv ∈ m) (hne : kv.1 ≠ k) : kv ∈ assocErase m k := by
  induction m with
  | nil => simp at hmem
  | cons kv1 rest ih =>
    obtain ⟨k1, v1⟩ := kv1
    rcases List.mem_cons.mp hmem with h | h
    · have h1 : k1 ≠ k := by
        rw [h] at hne
        exact hne
      simp only [assocErase, if_neg h1]
      exact h ▸ List.mem_cons_self _ _
    · by_cases h1 : k1 = k
      · simpa [assocErase, h1] using h
      · simp only [assocErase, if_neg h1]
        exact List.mem_cons_of_mem _ (ih h)

theorem length_assocErase_of_mem {α : Type} (m : List (String × α)) (k : String)
    (h : k ∈ assocKeys m) : (assocErase m k).length + 1 = m.length := by
  induction m with
  | nil => simp [assocKeys] at h
  | cons kv rest ih =>
    obtain ⟨k1, v1⟩ := kv
    by_cases h1 : k1 = k
    · simp [assocErase, h1]
    · simp only [assocKeys, List.map_cons, List.mem_cons] at h
      rcases h with h | h
      · exact absurd h.symm h1
      · simp only [assocErase, if_neg h1, List.length_cons]
        rw [← ih (by simpa [assocKeys] using h)]

/-! ### Helper lemmas about `removeFirst` -/

theorem mem_of_mem_removeFirst (l : List String) (x y : String)
    (h : y ∈ removeFirst l x) : y ∈ l := by
  induction l with
  | nil => simpa [removeFirst] using h
  | cons z rest ih =>
    by_cases h1 : z = x
    · simp only [removeFirst, if_pos h1] at h
      exact List.mem_cons_of_mem _ h
    · simp only [removeFirst, if_neg h1] at h
      rcases List.mem_cons.mp h with h2 | h2
      · exact h2 ▸ List.mem_cons_self _ _
      · exact List.mem_cons_of_mem _ (ih h2)

theorem removeFirst_nodup (l : List String) (x : String) (h : l.Nodup) :
    (removeFirst l x).Nodup := by
  induction l with
  | nil => simp [removeFirst]
  | cons z rest ih =>
    rw [List.nodup_cons] at h
    by_cases h1 : z = x
    · simpa [removeFirst, h1] using h.2
    · simp only [removeFirst, if_neg h1, List.nodup_cons]
      exact ⟨fun hz => h.1 (mem_of_mem_removeFirst rest x z hz), ih h.2⟩

theorem ne_of_mem_removeFirst_of_nodup (l : List String) (x y : String)
    (hnodup : l.Nodup) (h : y ∈ removeFirst l x) : y ≠ x := by
  induction l with
  | nil => simp [removeFirst] at h
  | cons z rest ih =>
    rw [List.nodup_cons] at hnodup
    by_cases h1 : z = x
    · subst h1
      simp only [removeFirst, if_pos rfl] at h
      exact fun he => hnodup.1 (he ▸ h)
    · simp only [removeFirst, if_neg h1] at h
      rcases List.mem_cons.mp h with h2 | h2
      · exact h2 ▸ h1
      · exact ih hnodup.2 h2

/-! ### Helper lemmas about the LRU minimum -/

theorem minEntryAux_mem (best : String × AgentHandle) (l : List (String × AgentHandle)) :
    minEntryAux best l ∈ best :: l := by
  induction l generalizing best with
  | nil => exact List.mem_cons_self _ _
  | cons kv rest ih =>
    have h := ih (if kv.2.lastUsed < best.2.lastUsed then kv else best)
    rw [minEntryAux]
    rcases List.mem_cons.mp h with h1 | h1
    · by_cases hc : kv.2.lastUsed < best.2.lastUsed
      · rw [h1, if_pos hc]
        exact List.mem_cons_of_mem _ (List.mem_cons_self _ _)
      · rw [h1, if_neg hc]
        exact List.mem_cons_self _ _
    · exact List.mem_cons_of_mem _ (List.mem_cons_of_mem _ h1)

theorem minEntryAux_le (best : String × AgentHandle) (l : List (String × AgentHandle)) :
    ∀ kv ∈ best :: l, (minEntryAux best l).2.lastUsed ≤ kv.2.lastUsed := by
  induction l generalizing best with
  | nil =>
    intro kv hkv
    rcases List.mem_cons.mp hkv with h | h
    · rw [h, minEntryAux]
    · simp at h
  | cons kv2 rest ih =>
    intro kv hkv
    rw [minEntryAux]
    set b2 := if kv2.2.lastUsed < best.2.lastUsed then kv2 else best with hb2
    have hself : (minEntryAux b2 rest).2.lastUsed ≤ b2.2.lastUsed :=
      ih b2 b2 (List.mem_cons_self _ _)
    have hle_best : b2.2.lastUsed ≤ best.2.lastUsed := by
      rw [hb2]
      by_cases hc : kv2.2.lastUsed < best.2.lastUsed
      · rw [if_pos hc]; exact Nat.le_of_lt hc
      · rw [if_neg hc]
    have hle_kv2 : b2.2.lastUsed ≤ kv2.2.lastUsed := by
      rw [hb2]
      by_cases hc : kv2.2.lastUsed < best.2.lastUsed
      · rw [if_pos hc]
      · rw [if_neg hc]; exact Nat.le_of_not_lt hc
    rcases List.mem_cons.mp hkv with h | h
    · exact h ▸ Nat.le_trans hself hle_best
    · rcases List.mem_cons.mp h with h2 | h2
      · exact h2 ▸ Nat.le_trans hself hle_kv2
      · exact ih b2 kv (List.mem_cons_of_mem _ h2)

/-! ### Order-independence of the environment hash -/

theorem charListLe_total (xs ys : List Char) :
    charListLe xs ys = true ∨ charListLe ys xs = true := by
  induction xs generalizing ys with
  | nil => left; rfl
  | cons a as ih =>
    cases ys with
    | nil => right; rfl
    | cons b bs =>
      by_cases h1 : a.toNat < b.toNat
      · left; simp [charListLe, h1]
      · by_cases h2 : b.toNat < a.toNat
        · right; simp [charListLe, h1, h2]
        · rcases ih bs with h | h
          · left; simp [charListLe, h1, h2, h]
          · right; simp [charListLe, h1, h2, h]

theorem charListLe_trans (xs ys zs : List Char) (h1 : charListLe xs ys = true)
    (h2 : charListLe ys zs = true) : charListLe xs zs = true := by
  induction xs generalizing ys zs with
  | nil => rfl
  | cons a as ih =>
    cases ys with
    | nil => simp [charListLe] at h1
    | cons b bs =>
      cases zs with
      | nil => simp [charListLe] at h2
      | cons c cs =>
        by_cases hab : a.toNat < b.toNat
        · by_cases hbc : b.toNat < c.toNat
          · simp [charListLe, Nat.lt_trans hab hbc]
          · by_cases hcb : c.toNat < b.toNat
            · simp [charListLe, hbc, hcb] at h2
            · have hbceq : b.toNat = c.toNat :=
                Nat.le_antisymm (Nat.le_of_not_lt hcb) (Nat.le_of_not_lt hbc)
              simp [charListLe, hbceq ▸ hab]
        · by_cases hba : b.toNat < a.toNat
          · simp [charListLe, hab, hba] at h1
          · have habeq : a.toNat = b.toNat :=
              Nat.le_antisymm (Nat.le_of_not_lt hba) (Nat.le_of_not_lt hab)
            simp only [charListLe, if_neg hab, if_neg hba] at h1
            by_cases hbc : b.toNat < c.toNat
            · simp [charListLe, habeq ▸ hbc]
            · by_cases hcb : c.toNat < b.toNat
              · simp [charListLe, hbc, hcb] at h2
              · have hbceq : b.toNat = c.toNat :=
                  Nat.le_antisymm (Nat.le_of_not_lt hcb) (Nat.le_of_not_lt hbc)
                simp only [charListLe, if_neg hbc, if_neg hcb] at h2
                have haceq : a.toNat = c.toNat := habeq.trans hbceq
                have h3 : ¬ a.toNat < c.toNat := by rw [haceq]; exact Nat.lt_irrefl _
                have h4 : ¬ c.toNat < a.toNat := by rw [haceq]; exact Nat.lt_irrefl _
                simp only [charListLe, if_neg h3, if_neg h4]
                exact ih bs cs h1 h2

theorem charListLe_antisymm (xs ys : List Char) (h1 : charListLe xs ys = true)
    (h2 : charListLe ys xs = true) : xs = ys := by
  induction xs generalizing ys with
  | nil =>
    cases ys with
    | nil => rfl
    | cons b bs => simp [charListLe] at h2
  | cons a as ih =>
    cases ys with
    | nil => simp [charListLe] at h1
    | cons b bs =>
      by_cases hab : a.toNat < b.toNat
      · simp only [charListLe, if_neg (Nat.lt_asymm hab), if_pos hab] at h2
        exact Bool.noConfusion h2
      · by_cases hba : b.toNat < a.toNat
        · simp only [charListLe, if_neg hab, if_pos hba] at h1
          exact Bool.noConfusion h1
        · have habeq : a.toNat = b.toNat :=
            Nat.le_antisymm (Nat.le_of_not_lt hba) (Nat.le_of_not_lt hab)
          have hchar : a = b := Char.ext (UInt32.toNat.inj habeq)
          simp only [charListLe, if_neg hab, if_neg hba] at h1
          simp only [charListLe, if_neg hba, if_neg hab] at h2
          rw [hchar, ih bs h1 h2]

theorem strLe_antisymm (a b : String) (h1 : strLe a b = true) (h2 : strLe b a = true) :
    a = b := by
  cases a with
  | mk da =>
    cases b with
    | mk db =>
      have : da = db := charListLe_antisymm da db h1 h2
      rw [this]

theorem sortEnv_eq_of_perm (env1 env2 : List (String × String))
    (hp : env1.Perm env2) (hnodup : (env1.map Prod.fst).Nodup) :
    sortEnv env1 = sortEnv env2 := by
  haveI : IsTotal (String × String) (fun a b => strLe a.1 b.1 = true) :=
    ⟨fun a b => charListLe_total a.1.data b.1.data⟩
  haveI : IsTrans (String × String) (fun a b => strLe a.1 b.1 = true) :=
    ⟨fun a b c h1 h2 => charListLe_trans a.1.data b.1.data c.1.data h1 h2⟩
  haveI : IsAntisymm (String × String)
      (fun a b : String × String => strLe a.1 b.1 = true ∧ a.1 ≠ b.1) :=
    ⟨fun a b h1 h2 => absurd (strLe_antisymm a.1 b.1 h1.1 h2.1) h1.2⟩
  have hr1 : (sortEnv env1).Perm env1 := List.perm_insertionSort _ env1
  have hr2 : (sortEnv env2).Perm env2 := List.perm_insertionSort _ env2
  have hs1 := List.sorted_insertionSort (fun a b : String × String => strLe a.1 b.1 = true) env1
  have hs2 := List.sorted_insertionSort (fun a b : String × String => strLe a.1 b.1 = true) env2
  have hperm12 : (sortEnv env1).Perm (sortEnv env2) := (hr1.trans hp).trans hr2.symm
  have hnod1 : ((sortEnv env1).map Prod.fst).Nodup := ((hr1.map Prod.fst).nodup_iff).mpr hnodup
  have hnod2 : ((sortEnv env2).map Prod.fst).Nodup := ((hperm12.map Prod.fst).nodup_iff).mp hnod1
  have strict : ∀ (l : List (String × String)),
      l.Sorted (fun a b => strLe a.1 b.1 = true) → (l.map Prod.fst).Nodup →
      l.Sorted (fun a b : String × String => strLe a.1 b.1 = true ∧ a.1 ≠ b.1) := by
    intro l hs hn
    have hn2 : (l.map Prod.fst).Pairwise (fun a b => a ≠ b) := hn
    have hne : l.Pairwise (fun a b : String × String => a.1 ≠ b.1) := List.pairwise_map.mp hn2
    exact List.Pairwise.and hs hne
  exact List.eq_of_perm_of_sorted hperm12 (strict _ hs1 hnod1) (strict _ hs2 hnod2)

theorem compute_agent_id_eq_of_perm (command : String) (env1 env2 : List (String × String))
    (hp : env1.Perm env2) (hnodup : (env1.map Prod.fst).Nodup) :
    compute_agent_id command env1 = compute_agent_id command env2 := by
  unfold compute_agent_id
  rw [sortEnv_eq_of_perm env1 env2 hp hnodup]

/-- C1: for every command and equal environments regardless of key order,
`compute_agent_id` yields the same identity; and a connect for an identity that
already has a handle refreshes its last-used time and reuses that handle's
command channel (through which the cached info snapshot is fetched) instead of
spawning a second supervisor — the registry's key set is unchanged. -/
theorem connect_deterministic_and_reuses_handle
    (command : String) (env1 env2 : List (String × String)) (st : AcpStateInner)
    (now freshTx : Nat) (h : AgentHandle)
    (hperm : env1.Perm env2) (hkeys : (env1.map Prod.fst).Nodup)
    (hfound : assocFind st.agents (compute_agent_id command env1) = some h) :
    compute_agent_id command env1 = compute_agent_id command env2 ∧
    (acp_connect st now command env1 freshTx).2 = ConnectAction.reused h.commandTx ∧
    assocFind (acp_connect st now command env1 freshTx).1.agents
      (compute_agent_id command env1) = some { h with lastUsed := now } ∧
    assocKeys (acp_connect st now command env1 freshTx).1.agents = assocKeys st.agents := by
  refine ⟨compute_agent_id_eq_of_perm command env1 env2 hperm hkeys, ?_, ?_, ?_⟩
  · simp only [acp_connect, hfound]
  · simp only [acp_connect, hfound]
    exact assocFind_assocInsert_self _ _ _
  · simp only [acp_connect, hfound]
    exact assocKeys_assocInsert_of_found _ _ _ _ hfound

/-- C1 witness: two environments differing only in key order, demonstrated on a
registry that already holds the identity. -/
theorem connect_deterministic_and_reuses_handle_witness :
    compute_agent_id "codex" [("B", "2"), ("A", "1")] =
      compute_agent_id "codex" [("A", "1"), ("B", "2")] ∧
    (acp_connect stOne 50 "codex" [("B", "2"), ("A", "1")] 9).2 =
      ConnectAction.reused 7 ∧
    assocKeys (acp_connect stOne 50 "codex" [("B", "2"), ("A", "1")] 9).1.agents =
      assocKeys stOne.agents := by
  have h := connect_deterministic_and_reuses_handle "codex"
    [("B", "2"), ("A", "1")] [("A", "1"), ("B", "2")] stOne 50 9 ⟨7, 3⟩
    (by decide) (by decide) (by decide)
  exact ⟨h.1, h.2.1, h.2.2.2⟩

/-- C2: connecting a new identity with the registry at capacity (5) spawns a new
supervisor and removes exactly one entry: one whose last-used timestamp is
minimal (never an entry more recently used); every other entry is retained, and
the registry still holds no more than the capacity afterwards. -/
theorem acp_connect_evicts_exactly_lru
    (st : AcpStateInner) (now freshTx : Nat) (command : String)
    (env : List (String × String))
    (hnodup : (assocKeys st.agents).Nodup)
    (hfull : st.agents.length = MAX_AGENT_PROCESSES)
    (hnone : assocFind st.agents (compute_agent_id command env) = none) :
    (acp_connect st now command env freshTx).2 = ConnectAction.spawned ∧
    ∃ ev, ev ∈ st.agents ∧
      (∀ kv ∈ st.agents, ev.2.lastUsed ≤ kv.2.lastUsed) ∧
      assocFind (acp_connect st now command env freshTx).1.agents ev.1 = none ∧
      (∀ kv ∈ st.agents, kv.1 ≠ ev.1 →
        kv ∈ (acp_connect st now command env freshTx).1.agents) ∧
      (acp_connect st now command env freshTx).1.agents.length = MAX_AGENT_PROCESSES := by
  have hne_nil : st.agents ≠ [] := by
    intro h0
    rw [h0] at hfull
    simp [MAX_AGENT_PROCESSES] at hfull
  obtain ⟨x, xs, hl⟩ : ∃ x xs, st.agents = x :: xs := by
    cases hagents0 : st.agents with
    | nil => exact absurd hagents0 hne_nil
    | cons a l => exact ⟨a, l, rfl⟩
  · have hcond : MAX_AGENT_PROCESSES ≤ st.agents.length := le_of_eq hfull.symm
    have hlru : lruOldest st.agents = some (minEntryAux x xs) := by rw [hl]; rfl
    have hstep : acp_connect st now command env freshTx =
        (⟨assocInsert (assocErase st.agents (minEntryAux x xs).1)
            (compute_agent_id command env) ⟨freshTx, now⟩⟩, ConnectAction.spawned) := by
      simp only [acp_connect, hnone, if_pos hcond, hlru]
    have hmem : minEntryAux x xs ∈ st.agents := by
      rw [hl]; exact minEntryAux_mem x xs
    have hmin : ∀ kv ∈ st.agents, (minEntryAux x xs).2.lastUsed ≤ kv.2.lastUsed := by
      rw [hl]; exact minEntryAux_le x xs
    have hkeymem : (minEntryAux x xs).1 ∈ assocKeys st.agents :=
      List.mem_map_of_mem Prod.fst hmem
    have hidnot : compute_agent_id command env ∉ assocKeys st.agents :=
      (assocFind_eq_none_iff _ _).mp hnone
    have hne : compute_agent_id command env ≠ (minEntryAux x xs).1 := by
      intro he; exact hidnot (he ▸ hkeymem)
    have hnone2 : assocFind (assocErase st.agents (minEntryAux x xs).1)
        (compute_agent_id command env) = none := by
      rw [assocFind_eq_none_iff]
      intro hmem2
      exact hidnot (mem_assocKeys_of_mem_assocErase _ _ _ hmem2)
    have hagents : (acp_connect st now command env freshTx).1.agents =
        assocErase st.agents (minEntryAux x xs).1 ++
          [(compute_agent_id command env, ⟨freshTx, now⟩)] := by
      rw [hstep]
      exact assocInsert_of_find_none _ _ _ hnone2
    refine ⟨by rw [hstep], minEntryAux x xs, hmem, hmin, ?_, ?_, ?_⟩
    · rw [hagents, assocFind_append]
      rw [assocFind_assocErase_self_of_nodup _ _ hnodup]
      simp [assocFind, hne]
    · intro kv hkv hkvne
      rw [hagents]
      exact List.mem_append_left _ (mem_assocErase_of_ne _ _ _ hkv hkvne)
    · rw [hagents, List.length_append, List.length_singleton,
        length_assocErase_of_mem _ _ hkeymem, hfull]

/-- C2 witness: a full registry of five agents with pairwise-distinct last-used
times; connecting a fresh identity spawns and evicts the minimal entry. -/
theorem acp_connect_evicts_exactly_lru_witness :
    (acp_connect stFive 100 "codex" [] 6).2 = ConnectAction.spawned ∧
    ∃ ev, ev ∈ stFive.agents ∧
      (∀ kv ∈ stFive.agents, ev.2.lastUsed ≤ kv.2.lastUsed) ∧
      assocFind (acp_connect stFive 100 "codex" [] 6).1.agents ev.1 = none ∧
      (∀ kv ∈ stFive.agents, kv.1 ≠ ev.1 →
        kv ∈ (acp_connect stFive 100 "codex" [] 6).1.agents) ∧
      (acp_connect stFive 100 "codex" [] 6).1.agents.length = MAX_AGENT_PROCESSES :=
  acp_connect_evicts_exactly_lru stFive 100 6 "codex" []
    (by decide) (by decide) (by decide)

/-! ### C3: permission resolution -/

theorem map_fst_decisions (l : List String) :
    (l.map (fun rid => (rid, (none : Option String)))).map Prod.fst = l := by
  induction l with
  | nil => rfl
  | cons x xs ih => simp [ih]

theorem permInv_after_cancel (s : RuntimeShared × List (String × Option String))
    (h : PermInv s) :
    PermInv ((cancel_pending_permissions s.1).1,
      s.2 ++ (cancel_pending_permissions s.1).2) := by
  obtain ⟨hpend, hdel, hdisj⟩ := h
  refine ⟨by simp [cancel_pending_permissions], ?_, ?_⟩
  · simp only [cancel_pending_permissions, List.map_append, map_fst_decisions]
    rw [List.nodup_append]
    exact ⟨hdel, hpend, fun a ha hmem => hdisj a hmem ha⟩
  · intro rid hrid
    simp [cancel_pending_permissions] at hrid

theorem applyPermOp_preserves (s : RuntimeShared × List (String × Option String))
    (op : PermOp) (h : PermInv s) : PermInv (applyPermOp s op) := by
  obtain ⟨hpend, hdel, hdisj⟩ := h
  cases op with
  | respond rid oid =>
    simp only [applyPermOp, resolve_permission_selection]
    by_cases hmem : rid ∈ s.1.pendingPermissions
    · simp only [if_pos hmem]
      refine ⟨removeFirst_nodup _ _ hpend, ?_, ?_⟩
      · rw [List.map_append, List.nodup_append]
        refine ⟨hdel, by simp, ?_⟩
        intro a ha
        simp only [List.map_cons, List.map_nil, List.mem_singleton]
        intro hae
        exact hdisj rid hmem (hae ▸ ha)
      · intro r hr
        have hr1 : r ∈ s.1.pendingPermissions := mem_of_mem_removeFirst _ _ _ hr
        have hr2 : r ≠ rid := ne_of_mem_removeFirst_of_nodup _ _ _ hpend hr
        rw [List.map_append]
        intro hcon
        rcases List.mem_append.mp hcon with hc | hc
        · exact hdisj r hr1 hc
        · simp at hc
          exact hr2 hc
    · simp only [if_neg hmem, List.append_nil]
      exact ⟨hpend, hdel, hdisj⟩
  | cancelSession => exact permInv_after_cancel s ⟨hpend, hdel, hdisj⟩
  | shutdown => exact permInv_after_cancel s ⟨hpend, hdel, hdisj⟩

theorem permInv_foldl (ops : List PermOp) :
    ∀ s, PermInv s → PermInv (ops.foldl applyPermOp s) := by
  induction ops with
  | nil => intro s h; exact h
  | cons op rest ih => intro s h; exact ih _ (applyPermOp_preserves s op h)

/-- C3: each pending permission is resolved at most once under any sequence of
respond / cancel / shutdown operations (the delivered-decision log never repeats
a request id); cancelling drains the whole pending table — in particular every
pending permission of the cancelled session — resolving each entry with no
decision; and each inbound permission call sends exactly one response back into
the protocol layer. -/
theorem pending_permissions_resolved_at_most_once
    (s : RuntimeShared × List (String × Option String)) (ops : List PermOp)
    (hInv : PermInv s) :
    ((ops.foldl applyPermOp s).2.map Prod.fst).Nodup ∧
    (cancel_pending_permissions s.1).1.pendingPermissions = [] ∧
    (cancel_pending_permissions s.1).2 =
      s.1.pendingPermissions.map (fun rid => (rid, none)) ∧
    (∀ (shared : RuntimeShared) (sessionId : String) (sinkSendOk : Bool)
        (decision : Option String),
      (run_permission_request shared sessionId sinkSendOk decision).2.length = 1) := by
  refine ⟨(permInv_foldl ops s hInv).2.1, rfl, rfl, ?_⟩
  intro shared sessionId sinkSendOk decision
  simp only [run_permission_request]
  split
  · rfl
  · rfl

/-- C3 witness: two pending permissions; respond to one, then cancel. -/
theorem pending_permissions_resolved_at_most_once_witness :
    ((permOps0.foldl applyPermOp permS0).2.map Prod.fst).Nodup ∧
    (cancel_pending_permissions permS0.1).1.pendingPermissions = [] ∧
    (cancel_pending_permissions permS0.1).2 =
      permS0.1.pendingPermissions.map (fun rid => (rid, none)) ∧
    (∀ (shared : RuntimeShared) (sessionId : String) (sinkSendOk : Bool)
        (decision : Option String),
      (run_permission_request shared sessionId sinkSendOk decision).2.length = 1) :=
  pending_permissions_resolved_at_most_once permS0 permOps0 ⟨by decide, by decide, by decide⟩

/-! ### C5: busy rejections -/

/-- C5: while a prompt is active, prompt, new-session, set-mode and set-model
commands are each rejected with a busy-style error, and the rejection changes
nothing: the shared state (registered sink, pending permissions), the in-flight
prompt (tool-call map, update count, visible-output flag, completion signal) are
returned untouched, no notification is sent to the process, and no permission
decision is delivered. -/
theorem busy_commands_rejected_and_prompt_state_unchanged
    (shared : RuntimeShared) (prompt : ActivePrompt) (notifySend : Except String Unit) :
    (∀ sessionId text,
      handle_command_while_prompt_running shared prompt
          (AgentCommand.promptCmd sessionId text) notifySend =
        ⟨shared, prompt, Except.error "prompt already in progress", [], []⟩) ∧
    (∀ cwd,
      handle_command_while_prompt_running shared prompt
          (AgentCommand.newSession cwd) notifySend =
        ⟨shared, prompt,
          Except.error "cannot create a new session while a prompt is running", [], []⟩) ∧
    (∀ sessionId modeId,
      handle_command_while_prompt_running shared prompt
          (AgentCommand.setMode sessionId modeId) notifySend =
        ⟨shared, prompt,
          Except.error "cannot change mode while a prompt is running", [], []⟩) ∧
    (∀ sessionId modelId,
      handle_command_while_prompt_running shared prompt
          (AgentCommand.setModel sessionId modelId) notifySend =
        ⟨shared, prompt,
          Except.error "cannot change model while a prompt is running", [], []⟩) :=
  ⟨fun _ _ => rfl, fun _ => rfl, fun _ _ => rfl, fun _ _ => rfl⟩

/-! ### C6: whitespace-only prompt text -/

/-- C6: a prompt command whose text is empty or whitespace-only is rejected with
the invalid-input error before the session table is consulted: the outcome is
the rejection message, no `ActivePrompt` is recorded, and the agent process is
never contacted — for every session table, session id and send behaviour. -/
theorem whitespace_prompt_rejected_invalid_input
    (agentId : String) (sessions : List String) (sessionId text : String)
    (sendResult : Except String Unit) (hempty : (rustTrim text).isEmpty = true) :
    handle_prompt_idle agentId sessions sessionId text sendResult =
      (PromptCmdResult.rejected "prompt text cannot be empty", false) := by
  simp [handle_prompt_idle, hempty]

/-- C6 witness: whitespace-only text, both with a known and an unknown session id. -/
theorem whitespace_prompt_rejected_invalid_input_witness :
    (rustTrim "  \t ").isEmpty = true ∧
    handle_prompt_idle "agent-1" ["sess-1"] "sess-1" "  \t " (Except.ok ()) =
      (PromptCmdResult.rejected "prompt text cannot be empty", false) ∧
    handle_prompt_idle "agent-1" ["sess-1"] "unknown" "" (Except.ok ()) =
      (PromptCmdResult.rejected "prompt text cannot be empty", false) :=
  ⟨by decide,
    whitespace_prompt_rejected_invalid_input "agent-1" ["sess-1"] "sess-1" "  \t "
      (Except.ok ()) (by decide),
    whitespace_prompt_rejected_invalid_input "agent-1" ["sess-1"] "unknown" ""
      (Except.ok ()) (by decide)⟩

/-! ### C7: termination with no visible output -/

/-- C7: when a prompt ends with a terminal stop reason and no visible output was
produced, the diagnostic warning event is emitted before the done event and the
completion result is still Ok; with visible output, only the done event is
emitted. -/
theorem no_visible_output_warns_then_done_ok
    (shared : RuntimeShared) (prompt : ActivePrompt) (stop : StopReason) :
    (prompt.sawVisibleOutput = false →
      (on_stop_reason shared prompt stop).1 =
        [AgentEvent.error (no_output_message (stop_reason_to_string stop)),
          AgentEvent.done (stop_reason_to_string stop)]) ∧
    (prompt.sawVisibleOutput = true →
      (on_stop_reason shared prompt stop).1 =
        [AgentEvent.done (stop_reason_to_string stop)]) ∧
    (prompt.respondTo = some () →
      (on_stop_reason shared prompt stop).2.1 = some (Except.ok ())) := by
  refine ⟨?_, ?_, ?_⟩
  · intro h
    simp [on_stop_reason, h]
  · intro h
    simp [on_stop_reason, h]
  · intro h
    simp [on_stop_reason, complete_prompt, h]

/-- C7 witness: one terminated prompt without visible output (warning then done,
result Ok) and one with visible output (done only). -/
theorem no_visible_output_warns_then_done_ok_witness :
    (on_stop_reason sharedS1 promptS1 StopReason.endTurn).1 =
      [AgentEvent.error (no_output_message "end_turn"), AgentEvent.done "end_turn"] ∧
    (on_stop_reason sharedS1 promptS1out StopReason.endTurn).1 =
      [AgentEvent.done "end_turn"] ∧
    (on_stop_reason sharedS1 promptS1 StopReason.endTurn).2.1 = some (Except.ok ()) :=
  ⟨(no_visible_output_warns_then_done_ok sharedS1 promptS1 StopReason.endTurn).1 rfl,
    (no_visible_output_warns_then_done_ok sharedS1 promptS1out StopReason.endTurn).2.1 rfl,
    (no_visible_output_warns_then_done_ok sharedS1 promptS1 StopReason.endTurn).2.2 rfl⟩

/-! ### C8: respond-to-permission and cancel while a prompt is running -/

/-- C8 counterexample: with a prompt active for session `s1`, a cancel command
for session `s2` is not forwarded: it is rejected with an error, no
`session/cancel` notification is sent, no pending permission is resolved, and
the shared state is untouched — refuting that every cancel command remains
valid and is forwarded while a prompt is active. -/
theorem cancel_other_session_rejected_counterexample :
    (handle_command_while_prompt_running sharedPending promptS1
        (AgentCommand.cancel "s2") (Except.ok ())).reply =
      Except.error "cannot cancel session \'s2\' while session \'s1\' is running" ∧
    (handle_command_while_prompt_running sharedPending promptS1
        (AgentCommand.cancel "s2") (Except.ok ())).cancelNotifications = [] ∧
    (handle_command_while_prompt_running sharedPending promptS1
        (AgentCommand.cancel "s2") (Except.ok ())).decisions = [] ∧
    (handle_command_while_prompt_running sharedPending promptS1
        (AgentCommand.cancel "s2") (Except.ok ())).shared = sharedPending :=
  ⟨rfl, rfl, rfl, rfl⟩

/-- C8 (amended): while a prompt is active, every respond-to-permission command
is processed (resolving the pending entry with the chosen option when present)
and every cancel command for the active prompt's own session is forwarded — the
`session/cancel` notification is sent and all pending permissions are resolved
with no decision; a cancel for a different session is rejected instead.  In
either case the command leaves the active prompt in place: termination happens
only in the update-reading arm of the loop. -/
theorem respond_and_matching_cancel_forwarded_while_prompt_running
    (shared : RuntimeShared) (prompt : ActivePrompt)
    (requestId optionId sessionId : String) (notifySend : Except String Unit) :
    (handle_command_while_prompt_running shared prompt
        (AgentCommand.respondPermission requestId optionId) notifySend).prompt = prompt ∧
    (requestId ∈ shared.pendingPermissions →
      (handle_command_while_prompt_running shared prompt
          (AgentCommand.respondPermission requestId optionId) notifySend).decisions =
        [(requestId, some optionId)] ∧
      (handle_command_while_prompt_running shared prompt
          (AgentCommand.respondPermission requestId optionId) notifySend).reply =
        Except.ok ()) ∧
    (sessionId = prompt.sessionId →
      handle_command_while_prompt_running shared prompt
          (AgentCommand.cancel sessionId) notifySend =
        ⟨⟨shared.activeStream, [], shared.nextPermissionRequestId⟩, prompt, notifySend,
          [sessionId], shared.pendingPermissions.map (fun rid => (rid, none))⟩) := by
  refine ⟨?_, ?_, ?_⟩
  · rfl
  · intro hmem
    constructor
    · simp [handle_command_while_prompt_running, resolve_permission_selection, hmem]
    · simp [handle_command_while_prompt_running, resolve_permission_selection, hmem]
  · intro hsid
    simp only [handle_command_while_prompt_running, if_pos hsid, cancel_pending_permissions]

/-- C8 witness: a pending permission is resolved with the chosen option, and a
cancel for the prompt's own session is forwarded and drains the table. -/
theorem respond_and_matching_cancel_forwarded_witness :
    (handle_command_while_prompt_running sharedPending promptS1
        (AgentCommand.respondPermission "permission-1" "allow") (Except.ok ())).decisions =
      [("permission-1", some "allow")] ∧
    handle_command_while_prompt_running sharedPending promptS1
        (AgentCommand.cancel "s1") (Except.ok ()) =
      ⟨⟨some ⟨"s1"⟩, [], 1⟩, promptS1, Except.ok (), ["s1"], [("permission-1", none)]⟩ :=
  ⟨((respond_and_matching_cancel_forwarded_while_prompt_running sharedPending promptS1
      "permission-1" "allow" "s1" (Except.ok ())).2.1 (by decide)).1,
    (respond_and_matching_cancel_forwarded_while_prompt_running sharedPending promptS1
      "permission-1" "allow" "s1" (Except.ok ())).2.2 rfl⟩

/-! ### C9: unsupported content kinds -/

/-- C9 counterexample: a thought chunk whose content is not text is dropped by
the pipeline: no placeholder text chunk is emitted and the visible-output flag
stays false — refuting the claim for thought chunks. -/
theorem nontext_thought_chunk_ignored_counterexample :
    handle_session_notification promptS1 (SessionUpdate.agentThoughtChunk ContentBlock.image) =
      ({ promptS1 with updateCount := 1 }, []) ∧
    (handle_session_notification promptS1
        (SessionUpdate.agentThoughtChunk ContentBlock.image)).1.sawVisibleOutput = false :=
  ⟨rfl, rfl⟩

/-- C9 (amended): an agent message chunk whose content type is not representable
emits a placeholder text chunk describing the unsupported kind and sets the
visible-output flag; a thought chunk with such content is instead dropped
without an event and without touching the flag. -/
theorem unsupported_message_chunk_placeholder_and_flag
    (prompt : ActivePrompt) (c : ContentBlock) (h : ∀ t, c ≠ ContentBlock.text t) :
    handle_session_notification prompt (SessionUpdate.agentMessageChunk c) =
      ({ prompt with updateCount := prompt.updateCount + 1, sawVisibleOutput := true },
        [AgentEvent.messageChunk
          ("[unsupported agent message content: " ++ content_block_kind c ++ "]")]) ∧
    handle_session_notification prompt (SessionUpdate.agentThoughtChunk c) =
      ({ prompt with updateCount := prompt.updateCount + 1 }, []) := by
  cases c with
  | text t => exact absurd rfl (h t)
  | image => exact ⟨rfl, rfl⟩
  | audio => exact ⟨rfl, rfl⟩
  | resourceLink => exact ⟨rfl, rfl⟩
  | resource => exact ⟨rfl, rfl⟩

/-- C9 witness: an image content block in a message chunk produces the
placeholder and sets the flag. -/
theorem unsupported_message_chunk_placeholder_witness :
    handle_session_notification promptS1 (SessionUpdate.agentMessageChunk ContentBlock.image) =
      ({ promptS1 with updateCount := 1, sawVisibleOutput := true },
        [AgentEvent.messageChunk "[unsupported agent message content: image]"]) ∧
    handle_session_notification promptS1 (SessionUpdate.agentThoughtChunk ContentBlock.image) =
      ({ promptS1 with updateCount := 1 }, []) :=
  unsupported_message_chunk_placeholder_and_flag promptS1 ContentBlock.image
    (fun t h => ContentBlock.noConfusion h)

/-! ### C10: empty-text chunks -/

theorem runNotifs_empty_chunks_flag (ns : List SessionUpdate) :
    ∀ prompt : ActivePrompt,
      (∀ u ∈ ns, u = SessionUpdate.agentMessageChunk (ContentBlock.text "") ∨
        u = SessionUpdate.agentThoughtChunk (ContentBlock.text "")) →
      (runNotifs prompt ns).1.sawVisibleOutput = prompt.sawVisibleOutput := by
  induction ns with
  | nil =>
    intro prompt h
    rfl
  | cons u rest ih =>
    intro prompt h
    have hrest := fun v hv => h v (List.mem_cons_of_mem _ hv)
    rcases h u (List.mem_cons_self _ _) with hu | hu
    · subst hu
      simp only [runNotifs]
      rw [ih _ hrest]
      rfl
    · subst hu
      simp only [runNotifs]
      rw [ih _ hrest]
      rfl

/-- C10: message and thought chunks with empty text are still forwarded to the
sink as events but do not set the visible-output flag; consequently a prompt
that streamed only empty-text chunks still emits the no-visible-output
diagnostic warning before the done event when it terminates. -/
theorem empty_chunks_forwarded_without_visibility
    (shared : RuntimeShared) (prompt : ActivePrompt) (ns : List SessionUpdate)
    (stop : StopReason)
    (hflag : prompt.sawVisibleOutput = false)
    (hns : ∀ u ∈ ns, u = SessionUpdate.agentMessageChunk (ContentBlock.text "") ∨
      u = SessionUpdate.agentThoughtChunk (ContentBlock.text "")) :
    handle_session_notification prompt (SessionUpdate.agentMessageChunk (ContentBlock.text "")) =
      ({ prompt with updateCount := prompt.updateCount + 1 }, [AgentEvent.messageChunk ""]) ∧
    handle_session_notification prompt (SessionUpdate.agentThoughtChunk (ContentBlock.text "")) =
      ({ prompt with updateCount := prompt.updateCount + 1 }, [AgentEvent.thinkingChunk ""]) ∧
    (runNotifs prompt ns).1.sawVisibleOutput = false ∧
    (on_stop_reason shared (runNotifs prompt ns).1 stop).1 =
      [AgentEvent.error (no_output_message (stop_reason_to_string stop)),
        AgentEvent.done (stop_reason_to_string stop)] := by
  have h3 : (runNotifs prompt ns).1.sawVisibleOutput = false :=
    (runNotifs_empty_chunks_flag ns prompt hns).trans hflag
  refine ⟨rfl, rfl, h3, ?_⟩
  simp [on_stop_reason, h3]

/-- C10 witness: a prompt that streams one empty message chunk and one empty
thought chunk, then stops. -/
theorem empty_chunks_forwarded_without_visibility_witness :
    handle_session_notification promptS1
        (SessionUpdate.agentMessageChunk (ContentBlock.text "")) =
      ({ promptS1 with updateCount := 1 }, [AgentEvent.messageChunk ""]) ∧
    handle_session_notification promptS1
        (SessionUpdate.agentThoughtChunk (ContentBlock.text "")) =
      ({ promptS1 with updateCount := 1 }, [AgentEvent.thinkingChunk ""]) ∧
    (runNotifs promptS1
        [SessionUpdate.agentMessageChunk (ContentBlock.text ""),
         SessionUpdate.agentThoughtChunk (ContentBlock.text "")]).1.sawVisibleOutput = false ∧
    (on_stop_reason sharedS1
        (runNotifs promptS1
          [SessionUpdate.agentMessageChunk (ContentBlock.text ""),
           SessionUpdate.agentThoughtChunk (ContentBlock.text "")]).1
        StopReason.endTurn).1 =
      [AgentEvent.error (no_output_message "end_turn"), AgentEvent.done "end_turn"] :=
  empty_chunks_forwarded_without_visibility sharedS1 promptS1
    [SessionUpdate.agentMessageChunk (ContentBlock.text ""),
     SessionUpdate.agentThoughtChunk (ContentBlock.text "")]
    StopReason.endTurn rfl (by decide)

/-! ### C4: tool-call coalescing refines field-wise merging -/

theorem update_with_all_fields (st tc : ToolCall) (hst : st.toolCallId = tc.toolCallId) :
    ToolCall.update st
      ⟨some tc.title, some tc.kind, some tc.status, some tc.content, some tc.locations⟩ = tc := by
  cases st with
  | mk sid stitle skind sstatus scontent slocs =>
    cases tc with
    | mk tid ttitle tkind tstatus tcontent tlocs =>
      simp only [ToolCall.update, Option.getD_some]
      have hids : sid = tid := hst
      rw [hids]

theorem runNotifs_toolNotifs (id : String) (ns : List ToolNotif) :
    ∀ (prompt : ActivePrompt) (st : ToolCall),
      (∀ tc, ToolNotif.create tc ∈ ns → tc.toolCallId = id) →
      (assocFind prompt.toolCalls id).getD (ToolCall.new id "tool") = st →
      st.toolCallId = id →
      (runNotifs prompt (ns.map (toolNotifToUpdate id))).2 =
        (specMergeStates st ns).map tool_call_to_event := by
  induction ns with
  | nil =>
    intro prompt st hids hfind hid
    rfl
  | cons n rest ih =>
    intro prompt st hids hfind hid
    have hrest : ∀ tc, ToolNotif.create tc ∈ rest → tc.toolCallId = id :=
      fun tc htc => hids tc (List.mem_cons_of_mem _ htc)
    cases n with
    | create tc =>
      have htc : tc.toolCallId = id := hids tc (List.mem_cons_self _ _)
      have hmerge : ToolCall.update st (fieldsOfNotif (ToolNotif.create tc)) = tc :=
        update_with_all_fields st tc (by rw [hid, htc])
      have hfind2 : (assocFind ({ prompt with
              updateCount := prompt.updateCount + 1
              toolCalls := assocInsert prompt.toolCalls tc.toolCallId tc
              sawVisibleOutput := true } : ActivePrompt).toolCalls id).getD
            (ToolCall.new id "tool") = tc := by
        show (assocFind (assocInsert prompt.toolCalls tc.toolCallId tc) id).getD
            (ToolCall.new id "tool") = tc
        rw [htc, assocFind_assocInsert_self]
        rfl
      show [tool_call_to_event tc] ++
          (runNotifs ({ prompt with
              updateCount := prompt.updateCount + 1
              toolCalls := assocInsert prompt.toolCalls tc.toolCallId tc
              sawVisibleOutput := true }) (rest.map (toolNotifToUpdate id))).2 =
        tool_call_to_event (ToolCall.update st (fieldsOfNotif (ToolNotif.create tc))) ::
          (specMergeStates (ToolCall.update st (fieldsOfNotif (ToolNotif.create tc)))
            rest).map tool_call_to_event
      rw [hmerge, ih _ tc hrest hfind2 htc]
      rfl
    | updateN f =>
      have hupdid : (ToolCall.update st f).toolCallId = id := hid
      have hfind2 : (assocFind ({ prompt with
              updateCount := prompt.updateCount + 1
              toolCalls := assocInsert prompt.toolCalls id (ToolCall.update st f)
              sawVisibleOutput := true } : ActivePrompt).toolCalls id).getD
            (ToolCall.new id "tool") = ToolCall.update st f := by
        show (assocFind (assocInsert prompt.toolCalls id (ToolCall.update st f)) id).getD
            (ToolCall.new id "tool") = ToolCall.update st f
        rw [assocFind_assocInsert_self]
        rfl
      show [tool_call_to_event
            (ToolCall.update ((assocFind prompt.toolCalls id).getD (ToolCall.new id "tool")) f)] ++
          (runNotifs ({ prompt with
              updateCount := prompt.updateCount + 1
              toolCalls := assocInsert prompt.toolCalls id
                (ToolCall.update ((assocFind prompt.toolCalls id).getD (ToolCall.new id "tool")) f)
              sawVisibleOutput := true }) (rest.map (toolNotifToUpdate id))).2 =
        tool_call_to_event (ToolCall.update st (fieldsOfNotif (ToolNotif.updateN f))) ::
          (specMergeStates (ToolCall.update st (fieldsOfNotif (ToolNotif.updateN f)))
            rest).map tool_call_to_event
      rw [hfind]
      simp only [fieldsOfNotif]
      rw [ih _ (ToolCall.update st f) hrest hfind2 hupdid]
      rfl

/-- C4: for any sequence of tool-call creation and update notifications bearing
one tool-call id within an active prompt that has not yet seen that id, the
events emitted by the pipeline are exactly, notification by notification, the
`ToolCallUpdate` renderings of the spec-side field-wise merge of all
notifications seen so far: later present fields override earlier values, absent
fields keep their previous values (last-writer-wins per field, keyed by id). -/
theorem tool_call_updates_coalesce_last_writer_wins
    (id : String) (ns : List ToolNotif) (prompt : ActivePrompt)
    (hids : ∀ tc, ToolNotif.create tc ∈ ns → tc.toolCallId = id)
    (hfresh : assocFind prompt.toolCalls id = none) :
    (runNotifs prompt (ns.map (toolNotifToUpdate id))).2 =
      (specMergeStates (ToolCall.new id "tool") ns).map tool_call_to_event :=
  runNotifs_toolNotifs id ns prompt (ToolCall.new id "tool") hids
    (by rw [hfresh]; rfl) rfl

/-- C4 witness: a creation followed by a partial update for id `tc1`; the
emitted events are the renderings of the successive field-wise merges. -/
theorem tool_call_updates_coalesce_witness :
    (runNotifs promptS1 (toolNotifs0.map (toolNotifToUpdate "tc1"))).2 =
      (specMergeStates (ToolCall.new "tc1" "tool") toolNotifs0).map tool_call_to_event :=
  tool_call_updates_coalesce_last_writer_wins "tc1" toolNotifs0 promptS1
    (by
      intro tc htc
      simp only [toolNotifs0] at htc
      rcases List.mem_cons.mp htc with h | h
      · injection h with h2
        rw [h2]
      · rcases List.mem_cons.mp h with h2 | h2
        · exact ToolNotif.noConfusion h2
        · exact absurd h2 (List.not_mem_nil _))
    (by decide)
